import Mathlib

/-!
Verification development for the streamduck per-device runtime
(`streamduck-core/src/core/thread.rs` and `streamduck-daemon/src/streamdeck.rs`).

The Rust code is shallowly embedded: machine integers become `Nat`/`Int` with
explicit `% 2 ^ w` where overflow matters, `f32` values that only ever flow
through exact arithmetic and comparisons are embedded as `ℚ`, images become a
symbolic expression tree (`Img`) recording exactly which compositing operation
the code performed, and the device/driver side effects of one call become an
explicit list of `DeviceAction`s.
-/

/-- Color is the RGBA quadruple `(u8, u8, u8, u8)` from `thread.rs`
(`pub type Color = (u8, u8, u8, u8)`); channels are bytes. -/
structure Color where
  r : Nat
  g : Nat
  b : Nat
  a : Nat
deriving DecidableEq, Repr

/-- Modelled from the spec: `TextAlignment` lives in `util::rendering` which is
not part of the sources; the spec gives its variants as Left, Center, Right.
It derives `Hash`, so its hash contribution is its discriminant. -/
inductive TextAlignment where
  | left
  | center
  | right
deriving DecidableEq, Repr

/-- ButtonTextShadow from `thread.rs`: an `(i32, i32)` offset and a color. -/
structure ButtonTextShadow where
  offset : Int × Int
  color : Color
deriving DecidableEq, Repr

/-- ButtonText from `thread.rs`. The `f32` fields (`scale`, `offset`) are
embedded as exact rationals. -/
structure ButtonText where
  text : String
  font : String
  scale : ℚ × ℚ
  alignment : TextAlignment
  padding : Nat
  offset : ℚ × ℚ
  color : Color
  shadow : Option ButtonTextShadow
deriving DecidableEq, Repr

/-- ButtonBackground from `thread.rs`. -/
inductive ButtonBackground where
  | solid (c : Color)
  | horizontalGradient (s e : Color)
  | verticalGradient (s e : Color)
  | existingImage (identifier : String)
  | newImage (blob : String)
deriving DecidableEq, Repr

/-- RendererComponent from `thread.rs`: background, ordered text overlays and
the `to_cache` flag. -/
structure RendererComponent where
  background : ButtonBackground
  text : List ButtonText
  to_cache : Bool
deriving DecidableEq, Repr

/-!
## Byte streams fed to the hasher

Rust hashes these types with `#[derive(Hash)]` (plus a manual `impl Hash for
ButtonText`) into a `DefaultHasher`.  We model the exact byte sequence the
`Hash` impls write into the hasher on a little-endian 64-bit platform:
integers are written as their little-endian bytes, `str` writes its UTF-8
bytes followed by the terminator byte `0xff`, a slice/`Vec` writes its length
as `usize` first, an enum writes its discriminant as an 8-byte value first,
`bool` writes one byte, and `Option` is an enum.
-/

/-- Little-endian bytes of a 64-bit word. -/
def u64LE (n : Nat) : List Nat :=
  [n % 256, n / 2 ^ 8 % 256, n / 2 ^ 16 % 256, n / 2 ^ 24 % 256,
   n / 2 ^ 32 % 256, n / 2 ^ 40 % 256, n / 2 ^ 48 % 256, n / 2 ^ 56 % 256]

/-- Little-endian bytes of a 32-bit word. -/
def u32LE (n : Nat) : List Nat :=
  [n % 256, n / 2 ^ 8 % 256, n / 2 ^ 16 % 256, n / 2 ^ 24 % 256]

/-- Little-endian bytes of an `i32` in two's complement. -/
def i32LE (z : Int) : List Nat :=
  u32LE (Int.toNat (z % 2 ^ 32))

/-- UTF-8 encoding of one character. -/
def utf8Char (c : Char) : List Nat :=
  let n := c.toNat
  if n < 0x80 then [n]
  else if n < 0x800 then [0xC0 + n / 64, 0x80 + n % 64]
  else if n < 0x10000 then [0xE0 + n / 4096, 0x80 + n / 64 % 64, 0x80 + n % 64]
  else [0xF0 + n / 262144, 0x80 + n / 4096 % 64, 0x80 + n / 64 % 64, 0x80 + n % 64]

/-- Bytes `Hash for str` feeds to the hasher: the UTF-8 bytes followed by
the `0xff` terminator. -/
def strBytes (s : String) : List Nat :=
  (s.toList.flatMap utf8Char) ++ [255]

/-- Bytes contributed by a `Color` (four `u8` fields in order). -/
def colorStream (c : Color) : List Nat :=
  [c.r % 256, c.g % 256, c.b % 256, c.a % 256]

/-- Discriminant contribution of a derived enum `Hash` (8 bytes LE). -/
def discStream (n : Nat) : List Nat := u64LE n

/-- Hash bytes of `TextAlignment` (fieldless enum: discriminant only). -/
def alignmentStream : TextAlignment → List Nat
  | .left => discStream 0
  | .center => discStream 1
  | .right => discStream 2

/-- Hash bytes of `ButtonTextShadow` (derived: fields in order). -/
def shadowStream (s : ButtonTextShadow) : List Nat :=
  i32LE s.offset.1 ++ i32LE s.offset.2 ++ colorStream s.color

/-- Hash bytes of `Option ButtonTextShadow` (enum: discriminant, then payload). -/
def optShadowStream : Option ButtonTextShadow → List Nat
  | none => discStream 0
  | some s => discStream 1 ++ shadowStream s

/-- The Rust `as i32` cast applied to an `f32` value: truncation toward zero,
saturating at the `i32` bounds.  This is the conversion
`(self.scale.0 * 100.0) as i32` performs in `impl Hash for ButtonText`;
note it truncates, it does not round. -/
def ratAsI32 (q : ℚ) : Int :=
  if q < -(2 ^ 31 : ℚ) then -(2 ^ 31)
  else if (2 ^ 31 - 1 : ℚ) < q then 2 ^ 31 - 1
  else Int.tdiv q.num q.den

/-- Hash bytes of `ButtonText`, following the manual `impl Hash for ButtonText`
in `thread.rs` (lines 578-591): text, font, the two scale floats multiplied by
100 and cast `as i32`, alignment, padding, the two offset floats likewise,
color and shadow. -/
def buttonTextStream (bt : ButtonText) : List Nat :=
  strBytes bt.text ++ strBytes bt.font ++
  i32LE (ratAsI32 (bt.scale.1 * 100)) ++ i32LE (ratAsI32 (bt.scale.2 * 100)) ++
  alignmentStream bt.alignment ++ u32LE (bt.padding % 2 ^ 32) ++
  i32LE (ratAsI32 (bt.offset.1 * 100)) ++ i32LE (ratAsI32 (bt.offset.2 * 100)) ++
  colorStream bt.color ++ optShadowStream bt.shadow

/-- Claim-side variant of `buttonTextStream` following the spec's words: the
float fields are quantized via `round(value * 100)` instead of the source's
truncating `as i32` cast.  Used only to compare against the code's stream. -/
def roundedTextStream (bt : ButtonText) : List Nat :=
  strBytes bt.text ++ strBytes bt.font ++
  i32LE (round (bt.scale.1 * 100)) ++ i32LE (round (bt.scale.2 * 100)) ++
  alignmentStream bt.alignment ++ u32LE (bt.padding % 2 ^ 32) ++
  i32LE (round (bt.offset.1 * 100)) ++ i32LE (round (bt.offset.2 * 100)) ++
  colorStream bt.color ++ optShadowStream bt.shadow

/-- Hash bytes of `ButtonBackground` (derived enum `Hash`). -/
def backgroundStream : ButtonBackground → List Nat
  | .solid c => discStream 0 ++ colorStream c
  | .horizontalGradient s e => discStream 1 ++ colorStream s ++ colorStream e
  | .verticalGradient s e => discStream 2 ++ colorStream s ++ colorStream e
  | .existingImage s => discStream 3 ++ strBytes s
  | .newImage s => discStream 4 ++ strBytes s

/-- Hash bytes of `Vec<ButtonText>`: length prefix (as `usize`) followed by the
elements. -/
def textsStream (l : List ButtonText) : List Nat :=
  u64LE l.length ++ l.flatMap buttonTextStream

/-- Hash bytes of `RendererComponent`: `#[derive(Hash)]` hashes the fields in
declaration order — `background`, `text`, and then `to_cache` as one byte. -/
def componentStream (c : RendererComponent) : List Nat :=
  backgroundStream c.background ++ textsStream c.text ++
  [if c.to_cache then 1 else 0]

/-!
## SipHash-1-3

`DefaultHasher` is `SipHasher13::new_with_keys(0, 0)`: SipHash with one
compression round and three finalization rounds.  State words are `Nat`s kept
below `2 ^ 64` by explicit masking.
-/

/-- Word size mask bound for the 64-bit SipHash state. -/
def M64 : Nat := 2 ^ 64

/-- Left-rotation of a 64-bit word. -/
def rotl64 (x n : Nat) : Nat :=
  ((x <<< n) % M64) ||| (x >>> (64 - n))

/-- The four 64-bit state words of SipHash. -/
structure SipState where
  v0 : Nat
  v1 : Nat
  v2 : Nat
  v3 : Nat

/-- One SIPROUND. -/
def sipRound (s : SipState) : SipState :=
  let v0 := (s.v0 + s.v1) % M64
  let v1 := rotl64 s.v1 13
  let v1 := v1 ^^^ v0
  let v0 := rotl64 v0 32
  let v2 := (s.v2 + s.v3) % M64
  let v3 := rotl64 s.v3 16
  let v3 := v3 ^^^ v2
  let v0 := (v0 + v3) % M64
  let v3 := rotl64 v3 21
  let v3 := v3 ^^^ v0
  let v2 := (v2 + v1) % M64
  let v1 := rotl64 v1 17
  let v1 := v1 ^^^ v2
  let v2 := rotl64 v2 32
  ⟨v0, v1, v2, v3⟩

/-- Absorb one 64-bit message word (1 compression round). -/
def sipCompress (s : SipState) (m : Nat) : SipState :=
  let s1 : SipState := ⟨s.v0, s.v1, s.v2, s.v3 ^^^ m⟩
  let s2 := sipRound s1
  ⟨s2.v0 ^^^ m, s2.v1, s2.v2, s2.v3⟩

/-- Little-endian value of a byte list (first byte least significant). -/
def le64 (bytes : List Nat) : Nat :=
  bytes.foldr (fun b acc => b % 256 + 256 * acc) 0

/-- Split a byte list into complete 8-byte chunks and the remaining tail. -/
def chunk8 : List Nat → List (List Nat) × List Nat
  | b0 :: b1 :: b2 :: b3 :: b4 :: b5 :: b6 :: b7 :: rest =>
    let p := chunk8 rest
    ([b0, b1, b2, b3, b4, b5, b6, b7] :: p.1, p.2)
  | rest => ([], rest)

/-- SipHash-1-3 with both keys zero, i.e. the value `DefaultHasher::finish`
returns after the given bytes were written. -/
def sipHash13 (bytes : List Nat) : Nat :=
  let s0 : SipState :=
    ⟨0x736f6d6570736575, 0x646f72616e646f6d, 0x6c7967656e657261, 0x7465646279746573⟩
  let p := chunk8 bytes
  let s := p.1.foldl (fun s w => sipCompress s (le64 w)) s0
  let b := ((bytes.length % 256) <<< 56 + le64 p.2) % M64
  let s := sipCompress s b
  let s : SipState := ⟨s.v0, s.v1, s.v2 ^^^ 0xff, s.v3⟩
  let s := sipRound (sipRound (sipRound s))
  ((s.v0 ^^^ s.v1) ^^^ (s.v2 ^^^ s.v3))

/-- `hash_renderer` from `thread.rs` (lines 628-632): hash the component with a
fresh `DefaultHasher` and return `finish()`. -/
def hash_renderer (c : RendererComponent) : Nat :=
  sipHash13 (componentStream c)

/-!
## Images, assets and the core environment

Pixel-level compositing is delegated to the `image` crate; what the core
decides is *which* compositing operation to perform.  `Img` is the symbolic
expression tree of those operations, so that two renders are equal exactly
when the code built them by the same sequence of calls.
-/

/-- Symbolic image values produced by the render pipeline. -/
inductive Img where
  /-- An opaque decoded image (an asset's pixel data, tagged). -/
  | raw (tag : Nat)
  /-- The startup missing-asset placeholder: the 16x16 magenta/black checker
  tiled to key resolution with the two shadowed strings
  (`spawn_device_thread`, lines 84-141). -/
  | placeholder
  /-- `image_from_solid size color`. -/
  | solid (size : Nat × Nat) (c : Color)
  /-- `image_from_horiz_gradient size start end`. -/
  | horizGradient (size : Nat × Nat) (s e : Color)
  /-- `image_from_vert_gradient size start end`. -/
  | vertGradient (size : Nat × Nat) (s e : Color)
  /-- `img.resize_to_fill(w, h, FilterType::Triangle)`. -/
  | resizeToFill (src : Img) (w h : Nat)
  /-- `img.rotate180()`. -/
  | rotate180 (src : Img)
  /-- `render_aligned_text_on_image` of one `ButtonText` over a base image. -/
  | textOn (base : Img) (bt : ButtonText)
  /-- `render_aligned_shadowed_text_on_image` of one `ButtonText` (whose
  `shadow` is set) over a base image. -/
  | shadowTextOn (base : Img) (bt : ButtonText)
deriving DecidableEq, Repr

/-- Device wire format, `streamdeck::ImageMode` as reported by the driver. -/
inductive ImageMode where
  | bmp
  | jpeg
deriving DecidableEq, Repr

/-- A device-ready image (`streamdeck::DeviceImage`): either produced by
`convert_image(&kind, image)` on the static redraw path, or by encoding a
rotated composition with `write_to` in the device's `ImageMode`. -/
inductive DeviceImg where
  | convert (img : Img)
  | encoded (img : Img) (mode : ImageMode)
deriving DecidableEq, Repr

/-- One frame of an animated asset (`images::AnimationFrame`, used by
`thread.rs`): its decoded image, its delay in seconds and its frame index.
The type itself lives outside the given sources; the three fields modelled
are exactly those `thread.rs` reads (`frame.image`, `frame.delay`,
`frame.index`). -/
structure AnimationFrame where
  image : Img
  delay : ℚ
  index : Nat
deriving DecidableEq, Repr

/-- `images::SDImage`: a single decoded image or an animated frame sequence. -/
inductive SDImage where
  | singleImage (img : Img)
  | animatedImage (frames : List AnimationFrame)
deriving DecidableEq, Repr

/-- A `UniqueButton`.  `parse_unique_button_to_component::<RendererComponent>`
succeeds exactly when the button carries a `renderer` component, which is the
only access `thread.rs` makes; module hooks receive the button itself, so an
opaque identity is kept alongside. -/
structure Button where
  renderer : Option RendererComponent
  tag : Nat
deriving DecidableEq, Repr

/-- A registered rendering module: `render` mutates the in-progress image,
`render_hash` mixes bytes into the hasher.  Both are opaque to the core. -/
structure RenderModule where
  render : Button → Img → Img
  renderHash : Button → List Nat

/-- The per-device environment the device thread reads: image geometry, the
asset store, registered rendering modules (in registration order), the font
collection, the decoding pipeline for `NewImage` blobs, the device image mode
and the current screen (its buttons map), as observed during one call. -/
structure CoreEnv where
  imageSize : Nat × Nat
  keyCount : Nat
  collection : String → Option SDImage
  modules : List RenderModule
  fontExists : String → Bool
  base64Decode : String → Option (List Nat)
  guessFormat : List Nat → Option (List Nat)
  decodeImage : List Nat → Option Img
  imageMode : ImageMode
  currentScreen : Option (Nat → Option Button)

/-!
## Finite maps

The device thread's `HashMap`s that are iterated (`renderer_map`, the
animation counters) are modelled as association lists in insertion order
(Rust's iteration order is unspecified; no claim depends on it).  The purely
looked-up caches are modelled as functions.
-/

/-- Lookup in an association list. -/
def mapGet {κ α : Type} [DecidableEq κ] : List (κ × α) → κ → Option α
  | [], _ => none
  | p :: rest, k => if p.1 = k then some p.2 else mapGet rest k

/-- `HashMap::insert`: replace the first binding of the key, else append. -/
def mapSet {κ α : Type} [DecidableEq κ] : List (κ × α) → κ → α → List (κ × α)
  | [], k, v => [(k, v)]
  | p :: rest, k, v => if p.1 = k then (k, v) :: rest else p :: mapSet rest k v

/-- `HashMap::remove`: drop all bindings of the key. -/
def mapErase {κ α : Type} [DecidableEq κ] : List (κ × α) → κ → List (κ × α)
  | [], _ => []
  | p :: rest, k => if p.1 = k then mapErase rest k else p :: mapErase rest k

/-- Point update of a function-backed map. -/
def upd {α : Type} (m : Nat → Option α) (k : Nat) (v : α) : Nat → Option α :=
  fun k' => if k' = k then some v else m k'

/-!
## Animation counters (`AnimationCounter`, `thread.rs` lines 258-309)

`Instant`s are embedded as rational time stamps; `now` is passed in
explicitly and `time.elapsed()` becomes `now - start`.
-/

/-- `AnimationCounter`: frames paired with their cumulative end times, the
creation time, the wakeup time, current index, total duration and the
new-frame edge flag. -/
structure AnimationCounter where
  frames : List (AnimationFrame × ℚ)
  start : ℚ
  wakeup_time : ℚ
  index : Nat
  duration : ℚ
  new_frame : Bool
deriving DecidableEq, Repr

/-- The running-sum pass of `AnimationCounter::new`: pair every frame with the
prefix sum of the delays up to and including it, and return the final counter
value (the duration). -/
def cumulate (tc : ℚ) : List AnimationFrame → List (AnimationFrame × ℚ) × ℚ
  | [] => ([], tc)
  | f :: rest =>
    let e := tc + f.delay
    let p := cumulate e rest
    ((f, e) :: p.1, p.2)

/-- `AnimationCounter::new`: cumulative end times from 0, `time` = creation
instant, `wakeup_time` = 0, `index` = 0, `new_frame` = false. -/
def AnimationCounter.new (fs : List AnimationFrame) (now : ℚ) : AnimationCounter :=
  let p := cumulate 0 fs
  ⟨p.1, now, 0, 0, p.2, false⟩

/-- The Rust `%` on nonnegative `f32`s: `a - b * trunc(a / b)`; for
`a ≥ 0, b > 0` this equals `a - b * ⌊a / b⌋`.  For `b = 0` the source
produces NaN, which compares false against everything; here `a / 0 = 0`
gives `qmod a 0 = a`, and in both cases the frame search below finds
nothing, leaving the counter unchanged. -/
def qmod (a b : ℚ) : ℚ :=
  a - b * (⌊a / b⌋ : ℤ)

/-- The search loop of `advance_counter`: the first frame (with its index)
whose cumulative end time strictly exceeds the looped time. -/
def findFrame (lp : ℚ) : List (AnimationFrame × ℚ) → Option (Nat × (AnimationFrame × ℚ))
  | [] => none
  | p :: rest =>
    if lp < p.2 then some (0, p)
    else (findFrame lp rest).map (fun q => (q.1 + 1, q.2))

/-- `AnimationCounter::advance_counter` at wall-clock time `now`. -/
def AnimationCounter.advance (c : AnimationCounter) (now : ℚ) : AnimationCounter :=
  let time := now - c.start
  if c.wakeup_time < time then
    let looped := qmod time c.duration
    match findFrame looped c.frames with
    | some q => { c with index := q.1, new_frame := true, wakeup_time := time + q.2.1.delay }
    | none => c
  else c

/-!
## Hashes computed by the device thread
-/

/-- Concatenated `render_hash` contributions of the registered rendering
modules, in registration order. -/
def moduleBytes (env : CoreEnv) (b : Button) : List Nat :=
  env.modules.flatMap (fun m => m.renderHash b)

/-- The static cache hash computed by `redraw` (lines 506-515): a fresh
`DefaultHasher` is fed the `u64` `hash_renderer(&component)` and then each
module's `render_hash` bytes. -/
def staticHash (env : CoreEnv) (b : Button) (c : RendererComponent) : Nat :=
  sipHash13 (u64LE (hash_renderer c) ++ moduleBytes env b)

/-- The animated-frame cache hash computed by `process_animations`
(lines 330-339): the component's own hash bytes, then the frame index as a
`usize`, then the module contributions. -/
def animatedHash (env : CoreEnv) (b : Button) (c : RendererComponent) (idx : Nat) : Nat :=
  sipHash13 (componentStream c ++ u64LE idx ++ moduleBytes env b)

/-!
## Background and foreground composition
-/

/-- The `get_image` closure inside `draw_background`'s `NewImage` arm:
base64-decode the blob, guess the format, decode; any failure is `none`. -/
def getImage (env : CoreEnv) (blob : String) : Option Img :=
  match env.base64Decode blob with
  | some bytes =>
    match env.guessFormat bytes with
    | some reader => env.decodeImage reader
    | none => none
  | none => none

/-- `draw_background` (`thread.rs` lines 374-428). -/
def drawBackground (env : CoreEnv) (renderer : RendererComponent) (missing : Img)
    (counters : List (String × AnimationCounter)) : Img :=
  match renderer.background with
  | .solid c =>
    Img.solid env.imageSize ⟨c.r, c.g, c.b, 255⟩
  | .horizontalGradient s e =>
    Img.horizGradient env.imageSize ⟨s.r, s.g, s.b, 255⟩ ⟨e.r, e.g, e.b, 255⟩
  | .verticalGradient s e =>
    Img.vertGradient env.imageSize ⟨s.r, s.g, s.b, 255⟩ ⟨e.r, e.g, e.b, 255⟩
  | .existingImage identifier =>
    match env.collection identifier with
    | some (.singleImage img) => Img.resizeToFill img env.imageSize.1 env.imageSize.2
    | some (.animatedImage _) =>
      match mapGet counters identifier with
      | some counter =>
        match counter.frames.get? counter.index with
        | some p => p.1.image
        | none => Img.solid env.imageSize ⟨0, 0, 0, 0⟩
      | none => Img.solid env.imageSize ⟨0, 0, 0, 0⟩
    | none => missing
  | .newImage blob =>
    match getImage env blob with
    | some img => Img.resizeToFill img env.imageSize.1 env.imageSize.2
    | none => missing

/-- `draw_foreground` (`thread.rs` lines 430-477): module renders in
registration order, then each `ButtonText` in order; a text whose font is not
in the collection is skipped, and a text with a shadow uses the shadowed
renderer. -/
def drawForeground (env : CoreEnv) (renderer : RendererComponent) (button : Button)
    (background : Img) : Img :=
  let base := env.modules.foldl (fun img m => m.render button img) background
  renderer.text.foldl
    (fun img bt =>
      if env.fontExists bt.font then
        match bt.shadow with
        | some _ => Img.shadowTextOn img bt
        | none => Img.textOn img bt
      else img)
    base

/-!
## Device thread state and actions
-/

/-- A device write performed by the thread: `write_button_image` or
`set_button_rgb` (black clears). -/
inductive DeviceAction where
  | writeImage (key : Nat) (img : DeviceImg)
  | setRGB (key : Nat) (r g b : Nat)
deriving DecidableEq, Repr

/-- The device thread's mutable state threaded through `redraw` and
`process_animations`: the decoded render cache, the encoded animation cache,
the renderer map, the animation counters and the shared `current_images`. -/
structure DeviceState where
  rendererCache : Nat → Option Img
  animationCache : Nat → Option DeviceImg
  rendererMap : List (Nat × (Button × RendererComponent))
  counters : List (String × AnimationCounter)
  currentImages : Nat → Option Img

/-- The accumulator one `redraw` call threads over the key indices: the
decoded cache, the renderer map and the freshly built `current_images`. -/
structure RedrawAcc where
  cache : Nat → Option Img
  rmap : List (Nat × (Button × RendererComponent))
  cimg : Nat → Option Img

/-- The animated-asset test at the top of `redraw`'s per-key body
("Cancel caching if image is animated"): the frames when the background is an
`ExistingImage` whose asset is animated, else `none`. -/
def animFrames (env : CoreEnv) (c : RendererComponent) : Option (List AnimationFrame) :=
  match c.background with
  | .existingImage identifier =>
    match env.collection identifier with
    | some (.animatedImage frames) => some frames
    | _ => none
  | _ => none

/-- One key's slice of `redraw` (`thread.rs` lines 494-538), returning the
updated accumulator and the device writes it performed.  On the animated
branch the source reads `frames[0]`; an empty frame list would fail there at
runtime, here it skips the `current_images` insert. -/
def redrawKey (env : CoreEnv) (sc : Nat → Option Button)
    (counters : List (String × AnimationCounter)) (missing : Img)
    (acc : RedrawAcc) (i : Nat) : RedrawAcc × List DeviceAction :=
  match sc i with
  | none =>
    ({ acc with rmap := mapErase acc.rmap i }, [.setRGB i 0 0 0])
  | some button =>
    match button.renderer with
    | none =>
      ({ acc with rmap := mapErase acc.rmap i,
                  cimg := upd acc.cimg i (Img.solid env.imageSize ⟨0, 0, 0, 255⟩) },
       [.setRGB i 0 0 0])
    | some component =>
      let acc1 := { acc with rmap := mapSet acc.rmap i (button, component) }
      match animFrames env component with
      | some frames =>
        (match frames.head? with
         | some f => { acc1 with cimg := upd acc1.cimg i f.image }
         | none => acc1,
         [])
      | none =>
        let h := staticHash env button component
        match acc1.cache h with
        | some image =>
          ({ acc1 with cimg := upd acc1.cimg i image },
           [.writeImage i (.convert image)])
        | none =>
          let image := drawForeground env component button
            (drawBackground env component missing counters)
          ({ acc1 with cache := upd acc1.cache h image, cimg := upd acc1.cimg i image },
           [.writeImage i (.convert image)])

/-- The per-key loop of `redraw` over the given key indices. -/
def redrawFold (env : CoreEnv) (sc : Nat → Option Button)
    (counters : List (String × AnimationCounter)) (missing : Img) :
    List Nat → RedrawAcc → RedrawAcc × List DeviceAction
  | [], acc => (acc, [])
  | i :: ks, acc =>
    let p := redrawKey env sc counters missing acc i
    let q := redrawFold env sc counters missing ks p.1
    (q.1, p.2 ++ q.2)

/-- `redraw` (`thread.rs` lines 480-544): if there is no current screen return
immediately, else run the per-key loop over keys `0 .. key_count` and replace
`current_images` with the freshly built map. -/
def redraw (env : CoreEnv) (missing : Img) (s : DeviceState) :
    List DeviceAction × DeviceState :=
  match env.currentScreen with
  | none => ([], s)
  | some sc =>
    let p := redrawFold env sc s.counters missing (List.range env.keyCount)
      ⟨s.rendererCache, s.rendererMap, fun _ => none⟩
    (p.2, { s with rendererCache := p.1.cache, rendererMap := p.1.rmap,
                   currentImages := p.1.cimg })

/-- One renderer-map entry's slice of `process_animations` (`thread.rs` lines
312-366): lazily create the asset's counter, and if its `new_frame` flag is
set, write the current frame — from the encoded cache when `to_cache` is set
and the hash is present, else by composing, rotating 180 degrees and encoding
(inserting into the cache only when `to_cache` is set).  The source indexes
`frames[index]` in `get_frame`; an out-of-range index would fail there at
runtime, here it skips the entry. -/
def animEntry (env : CoreEnv) (now : ℚ)
    (cache : Nat → Option DeviceImg) (counters : List (String × AnimationCounter))
    (e : Nat × (Button × RendererComponent)) :
    ((Nat → Option DeviceImg) × List (String × AnimationCounter)) × List DeviceAction :=
  let key := e.1
  let button := e.2.1
  let component := e.2.2
  match component.background with
  | .existingImage identifier =>
    let p : List (String × AnimationCounter) × Option AnimationCounter :=
      match mapGet counters identifier with
      | some c => (counters, some c)
      | none =>
        match env.collection identifier with
        | some (.animatedImage frames) =>
          let c := AnimationCounter.new frames now
          (mapSet counters identifier c, some c)
        | _ => (counters, none)
    match p.2 with
    | none => ((cache, p.1), [])
    | some counter =>
      if counter.new_frame then
        match counter.frames.get? counter.index with
        | none => ((cache, p.1), [])
        | some fr =>
          let h := animatedHash env button component fr.1.index
          let img := DeviceImg.encoded
            (Img.rotate180 (drawForeground env component button fr.1.image))
            env.imageMode
          match cache h, component.to_cache with
          | some v, true => ((cache, p.1), [.writeImage key v])
          | some _, false => ((cache, p.1), [.writeImage key img])
          | none, true => ((upd cache h img, p.1), [.writeImage key img])
          | none, false => ((cache, p.1), [.writeImage key img])
      else ((cache, p.1), [])
  | _ => ((cache, counters), [])

/-- The entry loop of `process_animations` over the renderer map. -/
def animFold (env : CoreEnv) (now : ℚ) :
    List (Nat × (Button × RendererComponent)) →
    (Nat → Option DeviceImg) → List (String × AnimationCounter) →
    ((Nat → Option DeviceImg) × List (String × AnimationCounter)) × List DeviceAction
  | [], cache, counters => ((cache, counters), [])
  | e :: rest, cache, counters =>
    let p := animEntry env now cache counters e
    let q := animFold env now rest p.1.1 p.1.2
    (q.1, p.2 ++ q.2)

/-- `process_animations` (`thread.rs` lines 311-372): walk the renderer map,
then clear every counter's `new_frame` flag and advance it. -/
def processAnimations (env : CoreEnv) (now : ℚ) (s : DeviceState) :
    List DeviceAction × DeviceState :=
  let p := animFold env now s.rendererMap s.animationCache s.counters
  let counters := p.1.2.map (fun q => (q.1, AnimationCounter.advance { q.2 with new_frame := false } now))
  (p.2, { s with animationCache := p.1.1, counters := counters })

/-!
## Input translation (`spawn_device_thread`, `thread.rs` lines 153-187)
-/

/-- The edge decision for one enumerated report entry `(key, value)` against
the previous report: if the key had a previous value that differs, emit
`(key, previous == 0)`; if it had none and the new value is nonzero, emit
`(key, true)`; else nothing. -/
def edgeOf (last : List Nat) (kv : Nat × Nat) : Option (Nat × Bool) :=
  match last[kv.1]? with
  | some lv => if lv ≠ kv.2 then some (kv.1, decide (lv = 0)) else none
  | none => if 0 < kv.2 then some (kv.1, true) else none

/-- Fold a list, appending the emitted value of each element (the shape of the
report loop: one optional channel send per enumerated entry). -/
def foldlEmit {α β : Type} (f : α → Option β) (l : List α) (acc : List β) : List β :=
  l.foldl
    (fun a x =>
      match f x with
      | some b => a ++ [b]
      | none => a)
    acc

/-- The button-reading step: walk the enumerated new report in order, sending
each edge over the key channel, then replace `last_buttons` with the new
report.  Returns the emitted edges in emission order and the new
`last_buttons`. -/
def readButtonsStep (last buttons : List Nat) : List (Nat × Bool) × List Nat :=
  (foldlEmit (edgeOf last) buttons.enum [], buttons)

/-!
## Driver error mapping (`streamduck-daemon/src/streamdeck.rs` lines 162-172)
-/

/-- The `hidapi::HidError` variants relevant to `map_error`: the
`HidApiError { message }` variant and (representing all others) an opaque
remainder. -/
inductive HidError where
  | hidApiError (message : String)
  | otherHid (tag : Nat)
deriving DecidableEq, Repr

/-- The `elgato_streamdeck::StreamDeckError` variants relevant to `map_error`:
the `HidError` wrapper and (representing all others) an opaque remainder. -/
inductive StreamDeckError where
  | hidError (e : HidError)
  | otherErr (tag : Nat)
deriving DecidableEq, Repr

/-- The daemon-side `DeviceError` results of `map_error`. -/
inductive DeviceError where
  | lostConnection
  | deviceError (inner : StreamDeckError)
deriving DecidableEq, Repr

/-- Helper for `strContains`: does `pat` occur as a prefix of any suffix. -/
def infixTest (pat : List Char) : List Char → Bool
  | [] => pat.isEmpty
  | c :: rest => pat.isPrefixOf (c :: rest) || infixTest pat rest

/-- Rust's `str::contains`: substring test. -/
def strContains (s pat : String) : Bool :=
  infixTest pat.toList s.toList

/-- `map_error`: a `HidError::HidApiError` whose message contains
"device disconnected" becomes `LostConnection`; everything else is wrapped in
`DeviceError`. -/
def map_error (err : StreamDeckError) : DeviceError :=
  match err with
  | .hidError (.hidApiError message) =>
    if strContains message "device disconnected" then .lostConnection
    else .deviceError (.hidError (.hidApiError message))
  | e => .deviceError e

/-- The claim-side disconnect test, following the spec's words: the error is a
HID API error whose message contains "device disconnected". -/
def specDisconnect : StreamDeckError → Bool
  | .hidError (.hidApiError message) => strContains message "device disconnected"
  | _ => false

/-!
## Per-key view functions

Specification views of one key's slice of `redraw`, used to relate two
consecutive `redraw` calls: each is the per-key outcome read against a fixed
cache `C`.
-/

/-- The actions `redrawKey` emits, as a function of the cache contents only
(the other accumulator components do not influence the emitted actions). -/
def keyActs (env : CoreEnv) (sc : Nat → Option Button)
    (counters : List (String × AnimationCounter)) (missing : Img)
    (C : Nat → Option Img) (i : Nat) : List DeviceAction :=
  (redrawKey env sc counters missing ⟨C, [], fun _ => none⟩ i).2

/-- The static hash `redrawKey` computes for key `i`, when it reaches the
static path (a button with a renderer component and a non-animated
background). -/
def keyHash (env : CoreEnv) (sc : Nat → Option Button) (i : Nat) : Option Nat :=
  match sc i with
  | none => none
  | some b =>
    match b.renderer with
    | none => none
    | some c =>
      match animFrames env c with
      | some _ => none
      | none => some (staticHash env b c)

/-- The image `redrawKey` composes for key `i` on a static-path cache miss
(only meaningful when `keyHash` is `some`; the placeholder default is never
read). -/
def keyComposed (env : CoreEnv) (sc : Nat → Option Button)
    (counters : List (String × AnimationCounter)) (missing : Img) (i : Nat) : Img :=
  match sc i with
  | some b =>
    match b.renderer with
    | some c => drawForeground env c b (drawBackground env c missing counters)
    | none => Img.placeholder
  | none => Img.placeholder

/-- The renderer-map binding `redrawKey` leaves for key `i`: the button and
component when both exist, else removal. -/
def keyRmapVal (env : CoreEnv) (sc : Nat → Option Button) (i : Nat) :
    Option (Button × RendererComponent) :=
  match sc i with
  | none => none
  | some b =>
    match b.renderer with
    | none => none
    | some c => some (b, c)

/-- The renderer-map update of one key. -/
def rmapOp (env : CoreEnv) (sc : Nat → Option Button)
    (m : List (Nat × (Button × RendererComponent))) (i : Nat) :
    List (Nat × (Button × RendererComponent)) :=
  match keyRmapVal env sc i with
  | some bc => mapSet m i bc
  | none => mapErase m i

/-- The `current_images` value `redrawKey` stores for key `i`, read against
the cache `C`. -/
def keyCimgVal (env : CoreEnv) (sc : Nat → Option Button)
    (counters : List (String × AnimationCounter)) (missing : Img)
    (C : Nat → Option Img) (i : Nat) : Option Img :=
  match sc i with
  | none => none
  | some b =>
    match b.renderer with
    | none => some (Img.solid env.imageSize ⟨0, 0, 0, 255⟩)
    | some c =>
      match animFrames env c with
      | some frames => frames.head?.map (·.image)
      | none =>
        match C (staticHash env b c) with
        | some v => some v
        | none => some (drawForeground env c b (drawBackground env c missing counters))

/-- The `current_images` update of one key, read against the cache `C`. -/
def cimgOp (env : CoreEnv) (sc : Nat → Option Button)
    (counters : List (String × AnimationCounter)) (missing : Img)
    (C : Nat → Option Img) (m : Nat → Option Img) (i : Nat) : Nat → Option Img :=
  match keyCimgVal env sc counters missing C i with
  | some v => upd m i v
  | none => m

/-- Delays of a frame list. -/
def frameDelays (fs : List AnimationFrame) : List ℚ :=
  fs.map (·.delay)

/-- Cumulative end time of frame `i`: the prefix sum of the delays through
frame `i`. -/
def cumEnd (fs : List AnimationFrame) (i : Nat) : ℚ :=
  ((frameDelays fs).take (i + 1)).sum

/-!
## Concrete inputs for witnesses and counterexamples
-/

/-- A device state with empty caches, maps and counters. -/
def emptyState : DeviceState :=
  ⟨fun _ => none, fun _ => none, [], [], fun _ => none⟩

/-- A renderer component with a black background, no text, caching on. -/
def compT2 : RendererComponent := ⟨.solid ⟨0, 0, 0, 0⟩, [], true⟩

/-- `compT2` with caching off. -/
def compF2 : RendererComponent := ⟨.solid ⟨0, 0, 0, 0⟩, [], false⟩

/-- A button carrying `compT2`. -/
def btn2 : Button := ⟨some compT2, 0⟩

/-- A minimal environment with no modules and no screen. -/
def env2 : CoreEnv :=
  ⟨(72, 72), 1, fun _ => none, [], fun _ => false, fun _ => none,
   fun _ => none, fun _ => none, .bmp, none⟩

/-- A red solid component with caching on (for the redraw idempotence
counterexample). -/
def comp1 : RendererComponent := ⟨.solid ⟨255, 0, 0, 255⟩, [], true⟩

/-- A button carrying `comp1`. -/
def btn1 : Button := ⟨some comp1, 0⟩

/-- A one-key environment whose screen shows `btn1` at key 0. -/
def env1 : CoreEnv :=
  ⟨(72, 72), 1, fun _ => none, [], fun _ => false, fun _ => none,
   fun _ => none, fun _ => none, .bmp,
   some (fun i => if i = 0 then some btn1 else none)⟩

/-- A green solid component with caching off (for the cache-write
counterexample). -/
def comp3 : RendererComponent := ⟨.solid ⟨0, 255, 0, 255⟩, [], false⟩

/-- A button carrying `comp3`. -/
def btn3 : Button := ⟨some comp3, 0⟩

/-- A one-key environment whose screen shows `btn3` at key 0. -/
def env3 : CoreEnv :=
  ⟨(72, 72), 1, fun _ => none, [], fun _ => false, fun _ => none,
   fun _ => none, fun _ => none, .bmp,
   some (fun i => if i = 0 then some btn3 else none)⟩

/-- A text overlay used by the animated-redraw counterexample. -/
def bt6 : ButtonText :=
  ⟨"hi", "default", (1, 1), .center, 0, (0, 0), ⟨255, 255, 255, 255⟩, none⟩

/-- An animated asset's single frame. -/
def frame6 : AnimationFrame := ⟨Img.raw 3, mkRat 1 10, 0⟩

/-- A component whose background is the animated asset "anim", with a text
overlay and caching on. -/
def comp6 : RendererComponent := ⟨.existingImage "anim", [bt6], true⟩

/-- A button carrying `comp6`. -/
def btn6 : Button := ⟨some comp6, 0⟩

/-- A one-key environment with the animated asset "anim" in the store and
`btn6` on screen; the font is present, so text would be composed if the
animated path composed at all. -/
def env6 : CoreEnv :=
  ⟨(72, 72), 1,
   fun id => if id = "anim" then some (.animatedImage [frame6]) else none,
   [], fun _ => true, fun _ => none, fun _ => none, fun _ => none, .bmp,
   some (fun i => if i = 0 then some btn6 else none)⟩

/-- A `RedrawAcc` with empty cache, map and images. -/
def acc6 : RedrawAcc := ⟨fun _ => none, [], fun _ => none⟩

/-- ButtonText whose horizontal scale is 0.518 (so scale times 100 truncates
to 51 but rounds to 52). -/
def btA7 : ButtonText :=
  ⟨"t", "f", (mkRat 518 1000, 1), .left, 0, (0, 0), ⟨0, 0, 0, 255⟩, none⟩

/-- ButtonText whose horizontal scale is 0.521 (so scale times 100 truncates
to 52 and rounds to 52). -/
def btB7 : ButtonText :=
  ⟨"t", "f", (mkRat 521 1000, 1), .left, 0, (0, 0), ⟨0, 0, 0, 255⟩, none⟩

/-- ButtonText whose horizontal scale is 0.018 (scale times 100 truncates
to 1). -/
def btC7 : ButtonText :=
  ⟨"t", "f", (mkRat 18 1000, 1), .left, 0, (0, 0), ⟨0, 0, 0, 255⟩, none⟩

/-- ButtonText whose horizontal scale is 0.011 (scale times 100 also
truncates to 1). -/
def btD7 : ButtonText :=
  ⟨"t", "f", (mkRat 11 1000, 1), .left, 0, (0, 0), ⟨0, 0, 0, 255⟩, none⟩

/-- Frames with delays 0.1, 0.2, 0.1 (duration 0.4). -/
def fs4 : List AnimationFrame :=
  [⟨Img.raw 0, mkRat 1 10, 0⟩, ⟨Img.raw 1, mkRat 1 5, 1⟩, ⟨Img.raw 2, mkRat 1 10, 2⟩]

/-- The counter built over `fs4` at time 0. -/
def ctr4 : AnimationCounter := AnimationCounter.new fs4 0

/-- A component for the `NewImage` decode-failure witness. -/
def comp9 : RendererComponent := ⟨.newImage "xx", [], true⟩

/-- An environment whose base64 decoder rejects everything. -/
def env9 : CoreEnv :=
  ⟨(72, 72), 1, fun _ => none, [], fun _ => false, fun _ => none,
   fun _ => none, fun _ => none, .bmp, none⟩

/-- A renderer map with the single entry `(0, btn3, comp3)` (caching off). -/
def rmap3 : List (Nat × (Button × RendererComponent)) := [(0, (btn3, comp3))]

/-- A device state whose renderer map is `rmap3`. -/
def state3 : DeviceState :=
  ⟨fun _ => none, fun _ => none, rmap3, [], fun _ => none⟩

/-!
## Map lemmas
-/

theorem mapGet_mapSet_self {κ α : Type} [DecidableEq κ] (l : List (κ × α)) (k : κ) (v : α) :
    mapGet (mapSet l k v) k = some v := by
  induction l with
  | nil => simp [mapGet, mapSet]
  | cons p rest ih =>
    by_cases h : p.1 = k
    · simp [mapSet, h, mapGet]
    · simp [mapSet, h, mapGet, ih]

theorem mapGet_mapSet_ne {κ α : Type} [DecidableEq κ] (l : List (κ × α)) (k k' : κ) (v : α)
    (h : k' ≠ k) : mapGet (mapSet l k v) k' = mapGet l k' := by
  induction l with
  | nil => simp [mapGet, mapSet, Ne.symm h]
  | cons p rest ih =>
    by_cases hp : p.1 = k
    · simp [mapSet, hp, mapGet, Ne.symm h]
    · simp [mapSet, hp, mapGet, ih]

theorem mapGet_mapErase_self {κ α : Type} [DecidableEq κ] (l : List (κ × α)) (k : κ) :
    mapGet (mapErase l k) k = none := by
  induction l with
  | nil => simp [mapGet, mapErase]
  | cons p rest ih =>
    by_cases h : p.1 = k
    · simpa [mapErase, h] using ih
    · simpa [mapErase, h, mapGet] using ih

theorem mapGet_mapErase_ne {κ α : Type} [DecidableEq κ] (l : List (κ × α)) (k k' : κ)
    (h : k' ≠ k) : mapGet (mapErase l k) k' = mapGet l k' := by
  induction l with
  | nil => simp [mapGet, mapErase]
  | cons p rest ih =>
    by_cases hp : p.1 = k
    · have hp' : ¬p.1 = k' := by rw [hp]; exact fun e => h e.symm
      simp [mapErase, hp, mapGet, hp', ih, Ne.symm h]
    · simp [mapErase, hp, mapGet, ih]

theorem mapSet_of_get {κ α : Type} [DecidableEq κ] (l : List (κ × α)) (k : κ) (v : α)
    (h : mapGet l k = some v) : mapSet l k v = l := by
  induction l with
  | nil => simp [mapGet] at h
  | cons p rest ih =>
    obtain ⟨a, b⟩ := p
    by_cases hp : a = k
    · have hv : b = v := by simpa [mapGet, hp] using h
      simp [mapSet, hp, hv]
    · simp [mapGet, hp] at h
      simp [mapSet, hp, ih h]

theorem mapErase_of_get_none {κ α : Type} [DecidableEq κ] (l : List (κ × α)) (k : κ)
    (h : mapGet l k = none) : mapErase l k = l := by
  induction l with
  | nil => simp [mapErase]
  | cons p rest ih =>
    by_cases hp : p.1 = k
    · simp [mapGet, hp] at h
    · simp [mapGet, hp] at h
      simp [mapErase, hp, ih h]

theorem upd_self {α : Type} (m : Nat → Option α) (k : Nat) (v : α) :
    upd m k v k = some v := by simp [upd]

theorem upd_ne {α : Type} (m : Nat → Option α) (k k' : Nat) (v : α) (h : k' ≠ k) :
    upd m k v k' = m k' := by simp [upd, h]

/-!
## C10 — solid and gradient backgrounds force alpha to 255
-/

/-- C10: composing a Solid background, and likewise the endpoint colors of the
two gradient backgrounds, builds the image from `(r, g, b, 255)`: the
configured alpha channel is ignored and replaced by 255, for every value of
the alpha. -/
theorem c10_alpha_ignored (env : CoreEnv) (missing : Img)
    (ctrs : List (String × AnimationCounter)) (txt : List ButtonText) (tc : Bool)
    (c s e : Color) :
    drawBackground env ⟨.solid c, txt, tc⟩ missing ctrs
      = Img.solid env.imageSize ⟨c.r, c.g, c.b, 255⟩
    ∧ drawBackground env ⟨.horizontalGradient s e, txt, tc⟩ missing ctrs
      = Img.horizGradient env.imageSize ⟨s.r, s.g, s.b, 255⟩ ⟨e.r, e.g, e.b, 255⟩
    ∧ drawBackground env ⟨.verticalGradient s e, txt, tc⟩ missing ctrs
      = Img.vertGradient env.imageSize ⟨s.r, s.g, s.b, 255⟩ ⟨e.r, e.g, e.b, 255⟩ :=
  ⟨rfl, rfl, rfl⟩

/-!
## C8 — driver error mapping
-/

/-- C8: `map_error` yields `LostConnection` if and only if the error is a HID
API error whose message contains "device disconnected"; every other driver
error is wrapped as `DeviceError`. -/
theorem c8_map_error (err : StreamDeckError) :
    (map_error err = .lostConnection ↔ specDisconnect err = true)
    ∧ (specDisconnect err = false → map_error err = .deviceError err) := by
  constructor
  · cases err with
    | hidError e =>
      cases e with
      | hidApiError message =>
        by_cases h : strContains message "device disconnected" = true
        · simp [map_error, specDisconnect, h]
        · simp [map_error, specDisconnect, h]
      | otherHid tag => simp [map_error, specDisconnect]
    | otherErr tag => simp [map_error, specDisconnect]
  · intro h
    cases err with
    | hidError e =>
      cases e with
      | hidApiError message =>
        simp [specDisconnect] at h
        simp [map_error, h]
      | otherHid tag => simp [map_error]
    | otherErr tag => simp [map_error]

/-- Witness for C8 at concrete errors: a disconnect message maps to
`LostConnection` and an unrelated error is wrapped. -/
theorem c8_witness :
    map_error (.hidError (.hidApiError "hid error: device disconnected (os)")) = .lostConnection
    ∧ map_error (.otherErr 7) = .deviceError (.otherErr 7) :=
  ⟨(c8_map_error _).1.mpr (by decide), (c8_map_error _).2 (by decide)⟩

/-!
## C2 — `to_cache` and the static hash
-/

/-- C2 as stated is false: the derived `Hash` of `RendererComponent` includes
`to_cache`, so the two components below, which differ only in `to_cache`,
produce different static redraw hashes. -/
theorem c2_counterexample :
    compF2 = { compT2 with to_cache := false }
    ∧ staticHash env2 btn2 compT2 ≠ staticHash env2 btn2 compF2 :=
  ⟨rfl, by decide⟩

/-- C2 amended: `to_cache` IS an input to the hash — for every background and
text list, the byte streams hashed for two components differing only in
`to_cache` differ (in their final byte). -/
theorem c2_to_cache_hashed (bg : ButtonBackground) (txt : List ButtonText) :
    (componentStream ⟨bg, txt, true⟩ == componentStream ⟨bg, txt, false⟩) = false := by
  rw [beq_eq_false_iff_ne]
  intro h
  have h1 := congrArg List.getLast? h
  simp [componentStream, List.getLast?_concat] at h1

/-!
## C7 — float quantization in the ButtonText hash
-/

section
attribute [local semireducible] Rat.mul Rat.add Rat.sub Rat.inv

/-- C7 as stated is false: the cast in `impl Hash for ButtonText` truncates.
The two texts below have scales 0.518 and 0.521, whose float fields round to
the same hundredth (52), yet their hash byte streams differ (51 versus 52);
and the code's stream differs from the spec's rounded stream at 0.518. -/
theorem c7_counterexample :
    round (btA7.scale.1 * 100) = round (btB7.scale.1 * 100)
    ∧ buttonTextStream btA7 ≠ buttonTextStream btB7
    ∧ buttonTextStream btA7 ≠ roundedTextStream btA7 :=
  ⟨by decide, by decide, by decide⟩

end

/-- C7 amended: each float field of scale and offset contributes the
fixed-point i32 value obtained by truncating `value * 100` toward zero (the
`as i32` cast), so any two floats whose scaled values truncate to the same
i32 contribute identical hash input, and all other fields (text, font,
alignment, padding, color, shadow) are hashed directly. -/
theorem c7_text_hash_trunc (b1 b2 : ButtonText)
    (ht : b1.text = b2.text) (hf : b1.font = b2.font)
    (ha : b1.alignment = b2.alignment) (hp : b1.padding = b2.padding)
    (hc : b1.color = b2.color) (hs : b1.shadow = b2.shadow)
    (h1 : ratAsI32 (b1.scale.1 * 100) = ratAsI32 (b2.scale.1 * 100))
    (h2 : ratAsI32 (b1.scale.2 * 100) = ratAsI32 (b2.scale.2 * 100))
    (h3 : ratAsI32 (b1.offset.1 * 100) = ratAsI32 (b2.offset.1 * 100))
    (h4 : ratAsI32 (b1.offset.2 * 100) = ratAsI32 (b2.offset.2 * 100)) :
    buttonTextStream b1 = buttonTextStream b2 := by
  simp [buttonTextStream, ht, hf, ha, hp, hc, hs, h1, h2, h3, h4]

section
attribute [local semireducible] Rat.mul Rat.add Rat.sub Rat.inv

/-- Witness for C7 at concrete texts: scales 0.018 and 0.011 truncate to the
same fixed point, so the streams coincide. -/
theorem c7_witness : buttonTextStream btC7 = buttonTextStream btD7 :=
  c7_text_hash_trunc btC7 btD7 rfl rfl rfl rfl rfl rfl
    (by decide) (by decide) (by decide) (by decide)

end

/-!
## C9 — the placeholder substitution in `draw_background`
-/

/-- C9: background composition returns the missing-asset placeholder exactly
when the background is a `NewImage` whose blob fails the decode pipeline or
an `ExistingImage` absent from the asset store; a decoded `NewImage` and a
present single-image asset are instead resized to the key resolution.  The
hypothesis says no counter holds the placeholder itself as a frame (frames
come from decoded assets). -/
theorem c9_draw_background_placeholder (env : CoreEnv) (c : RendererComponent)
    (ctrs : List (String × AnimationCounter))
    (hctr : ∀ id ctr, mapGet ctrs id = some ctr →
      ∀ p, p ∈ ctr.frames → p.1.image ≠ Img.placeholder) :
    (drawBackground env c Img.placeholder ctrs = Img.placeholder ↔
      (∃ blob, c.background = .newImage blob ∧ getImage env blob = none)
      ∨ (∃ id, c.background = .existingImage id ∧ env.collection id = none))
    ∧ (∀ blob img, c.background = .newImage blob → getImage env blob = some img →
        drawBackground env c Img.placeholder ctrs
          = Img.resizeToFill img env.imageSize.1 env.imageSize.2)
    ∧ (∀ id img, c.background = .existingImage id →
        env.collection id = some (.singleImage img) →
        drawBackground env c Img.placeholder ctrs
          = Img.resizeToFill img env.imageSize.1 env.imageSize.2) := by
  refine ⟨?_, ?_, ?_⟩
  · cases hbg : c.background with
    | solid col => simp [drawBackground, hbg]
    | horizontalGradient s e => simp [drawBackground, hbg]
    | verticalGradient s e => simp [drawBackground, hbg]
    | existingImage id =>
      cases hco : env.collection id with
      | none => simp [drawBackground, hbg, hco]
      | some sd =>
        cases sd with
        | singleImage img => simp [drawBackground, hbg, hco]
        | animatedImage frames =>
          simp only [drawBackground, hbg, hco]
          cases hc : mapGet ctrs id with
          | none => simp [hbg, hco]
          | some ctr =>
            cases hfr : ctr.frames[ctr.index]? with
            | none => simp [hbg, hco, hfr]
            | some p =>
              have hmem : p ∈ ctr.frames := List.getElem?_mem hfr
              simp [hbg, hco, hfr, hctr id ctr hc p hmem]
    | newImage blob =>
      cases hgi : getImage env blob with
      | none => simp [drawBackground, hbg, hgi]
      | some img => simp [drawBackground, hbg, hgi]
  · intro blob img hbg hgi
    simp [drawBackground, hbg, hgi]
  · intro id img hbg hco
    simp [drawBackground, hbg, hco]

/-- Witness for C9: with no counters, a `NewImage` whose blob the decoder
rejects composes to the placeholder. -/
theorem c9_witness :
    drawBackground env9 comp9 Img.placeholder [] = Img.placeholder :=
  (c9_draw_background_placeholder env9 comp9 []
    (fun id ctr h => by simp [mapGet] at h)).1.mpr (Or.inl ⟨"xx", rfl, rfl⟩)

/-!
## C4 — animation counter advancement
-/

theorem cumulate_snd (l : List AnimationFrame) :
    ∀ t0 : ℚ, (cumulate t0 l).2 = t0 + (frameDelays l).sum := by
  induction l with
  | nil => intro t0; simp [cumulate, frameDelays]
  | cons f rest ih =>
    intro t0
    simp only [cumulate, frameDelays, List.map_cons, List.sum_cons]
    rw [ih (t0 + f.delay)]
    simp [frameDelays]
    ring

theorem cumulate_get (l : List AnimationFrame) :
    ∀ (t0 : ℚ) (j : Nat),
      (cumulate t0 l).1[j]? =
        (l[j]?).map (fun f => (f, t0 + ((frameDelays l).take (j + 1)).sum)) := by
  induction l with
  | nil => intro t0 j; simp [cumulate]
  | cons f rest ih =>
    intro t0 j
    cases j with
    | zero => simp [cumulate, frameDelays]
    | succ j =>
      simp only [cumulate, List.getElem?_cons_succ]
      rw [ih (t0 + f.delay) j]
      cases hr : rest[j]? with
      | none => simp [hr]
      | some g => simp [hr, frameDelays, List.take_succ_cons, add_assoc]

theorem findFrame_spec (lp : ℚ) :
    ∀ (l : List (AnimationFrame × ℚ)) (i : Nat) (p : AnimationFrame × ℚ),
      findFrame lp l = some (i, p) →
      l[i]? = some p ∧ lp < p.2 ∧ ∀ j q, j < i → l[j]? = some q → q.2 ≤ lp := by
  intro l
  induction l with
  | nil => intro i p h; simp [findFrame] at h
  | cons p0 rest ih =>
    intro i p h
    by_cases hlt : lp < p0.2
    · simp only [findFrame, if_pos hlt] at h
      obtain ⟨rfl, rfl⟩ := (Prod.mk.injEq ..).mp (Option.some.inj h)
      refine ⟨by simp, hlt, ?_⟩
      intro j q hj
      omega
    · rw [findFrame, if_neg hlt, Option.map_eq_some'] at h
      obtain ⟨⟨i', p'⟩, hfind, hfp⟩ := h
      obtain ⟨rfl, rfl⟩ := (Prod.mk.injEq ..).mp hfp
      obtain ⟨hget, hplt, hleast⟩ := ih i' p' hfind
      refine ⟨by simpa using hget, hplt, ?_⟩
      intro j q hj hq
      cases j with
      | zero =>
        simp at hq
        rw [← hq]
        exact le_of_not_lt hlt
      | succ j' =>
        simp at hq
        exact hleast j' q (by omega) hq

theorem findFrame_isSome (lp : ℚ) :
    ∀ (l : List (AnimationFrame × ℚ)) (j : Nat) (q : AnimationFrame × ℚ),
      l[j]? = some q → lp < q.2 → (findFrame lp l).isSome := by
  intro l
  induction l with
  | nil => intro j q h; simp at h
  | cons p0 rest ih =>
    intro j q hq hlt
    by_cases hlt0 : lp < p0.2
    · simp [findFrame, hlt0]
    · cases j with
      | zero =>
        simp at hq
        rw [hq] at hlt0
        exact absurd hlt hlt0
      | succ j' =>
        simp at hq
        have := ih j' q hq hlt
        simp [findFrame, hlt0, Option.isSome_map]
        exact this

theorem qmod_eq_mul_fract (a b : ℚ) (hb : b ≠ 0) :
    qmod a b = b * Int.fract (a / b) := by
  unfold qmod Int.fract
  rw [mul_sub, mul_div_cancel₀ _ hb]

theorem qmod_nonneg (a b : ℚ) (hb : 0 < b) : 0 ≤ qmod a b := by
  rw [qmod_eq_mul_fract a b (ne_of_gt hb)]
  exact mul_nonneg hb.le (Int.fract_nonneg _)

theorem qmod_lt (a b : ℚ) (hb : 0 < b) : qmod a b < b := by
  rw [qmod_eq_mul_fract a b (ne_of_gt hb)]
  calc b * Int.fract (a / b) < b * 1 :=
        mul_lt_mul_of_pos_left (Int.fract_lt_one _) hb
    _ = b := mul_one b

/-- C4: on an advance at elapsed time `t` strictly past `wakeup_time` (for a
counter built by `AnimationCounter::new` over a non-empty frame list with
positive total duration), the new index is the least `i` whose cumulative end
time strictly exceeds `t mod duration`, `new_frame` is set, and `wakeup_time`
becomes `t` plus frame `i`'s delay; the cumulative end times and the duration
are the prefix sums and the total sum of the per-frame delays. -/
theorem c4_advance_counter (fs : List AnimationFrame) (c : AnimationCounter) (now : ℚ)
    (hfr : c.frames = (cumulate 0 fs).1) (hdur : c.duration = (cumulate 0 fs).2)
    (hne : fs ≠ []) (hpos : 0 < (frameDelays fs).sum)
    (hwk : c.wakeup_time < now - c.start) :
    (cumulate 0 fs).2 = (frameDelays fs).sum
    ∧ (∀ j fr e, (cumulate 0 fs).1[j]? = some (fr, e) →
        fs[j]? = some fr ∧ e = cumEnd fs j)
    ∧ ∃ i fr,
        fs[i]? = some fr
        ∧ (c.advance now).index = i
        ∧ qmod (now - c.start) ((frameDelays fs).sum) < cumEnd fs i
        ∧ (∀ j, j < i → cumEnd fs j ≤ qmod (now - c.start) ((frameDelays fs).sum))
        ∧ (c.advance now).new_frame = true
        ∧ (c.advance now).wakeup_time = (now - c.start) + fr.delay := by
  have hsnd : (cumulate 0 fs).2 = (frameDelays fs).sum := by
    rw [cumulate_snd fs 0, zero_add]
  have hget : ∀ j fr e, (cumulate 0 fs).1[j]? = some (fr, e) →
      fs[j]? = some fr ∧ e = cumEnd fs j := by
    intro j fr e h
    rw [cumulate_get fs 0 j] at h
    cases hj : fs[j]? with
    | none => rw [hj] at h; simp at h
    | some g =>
      rw [hj] at h
      simp only [Option.map_some', Option.some.injEq, Prod.mk.injEq] at h
      obtain ⟨hg, he⟩ := h
      refine ⟨by rw [hg], ?_⟩
      rw [← he, zero_add]
      rfl
  have hdur' : c.duration = (frameDelays fs).sum := by rw [hdur, hsnd]
  have hltD : qmod (now - c.start) ((frameDelays fs).sum) < (frameDelays fs).sum :=
    qmod_lt _ _ hpos
  -- the last frame's cumulative end time is the duration, which exceeds the mod
  have hn : 0 < fs.length := List.length_pos.mpr hne
  have hlast : fs[fs.length - 1]? = some (fs.get ⟨fs.length - 1, by omega⟩) :=
    List.getElem?_eq_getElem (by omega)
  have hcumlast : cumEnd fs (fs.length - 1) = (frameDelays fs).sum := by
    rw [cumEnd]
    have hlen : (frameDelays fs).length = fs.length := by simp [frameDelays]
    rw [show fs.length - 1 + 1 = fs.length from by omega, ← hlen, List.take_length]
  have hframes_last : c.frames[fs.length - 1]? =
      some ((fs.get ⟨fs.length - 1, by omega⟩), cumEnd fs (fs.length - 1)) := by
    rw [hfr, cumulate_get fs 0 (fs.length - 1), hlast]
    simp [cumEnd]
  have hsome : (findFrame (qmod (now - c.start) ((frameDelays fs).sum)) c.frames).isSome := by
    apply findFrame_isSome _ c.frames (fs.length - 1) _ hframes_last
    rw [hcumlast]
    exact hltD
  obtain ⟨⟨i, p⟩, hff⟩ := Option.isSome_iff_exists.mp hsome
  obtain ⟨hfi, hplt, hleast⟩ := findFrame_spec _ c.frames i p hff
  have hip : fs[i]? = some p.1 ∧ p.2 = cumEnd fs i := by
    rw [hfr] at hfi
    exact hget i p.1 p.2 (by simpa using hfi)
  have hadv : c.advance now =
      { c with index := i, new_frame := true,
               wakeup_time := (now - c.start) + p.1.delay } := by
    simp only [AnimationCounter.advance]
    rw [if_pos hwk, hdur', hff]
  refine ⟨hsnd, hget, i, p.1, hip.1, by rw [hadv], ?_, ?_, by rw [hadv], by rw [hadv]⟩
  · rw [← hip.2]; exact hplt
  · intro j hj
    have hilen : i < fs.length := by
      cases hq : fs[i]? with
      | none => rw [hq] at hip; exact absurd hip.1 (by simp)
      | some g => exact (List.getElem?_eq_some.mp hq).1
    have hjlen : j < fs.length := by omega
    have hjget : fs[j]? = some (fs.get ⟨j, hjlen⟩) := List.getElem?_eq_getElem hjlen
    have hframes_j : c.frames[j]? = some ((fs.get ⟨j, hjlen⟩), cumEnd fs j) := by
      rw [hfr, cumulate_get fs 0 j, hjget]
      simp [cumEnd]
    have := hleast j _ hj hframes_j
    simpa using this

section
attribute [local semireducible] Rat.mul Rat.add Rat.sub Rat.inv

/-- Witness for C4: frames with delays 0.1, 0.2, 0.1 advanced at time 0.25. -/
theorem c4_witness :
    (cumulate 0 fs4).2 = (frameDelays fs4).sum
    ∧ (∀ j fr e, (cumulate 0 fs4).1[j]? = some (fr, e) →
        fs4[j]? = some fr ∧ e = cumEnd fs4 j)
    ∧ ∃ i fr,
        fs4[i]? = some fr
        ∧ (ctr4.advance (mkRat 1 4)).index = i
        ∧ qmod (mkRat 1 4 - ctr4.start) ((frameDelays fs4).sum) < cumEnd fs4 i
        ∧ (∀ j, j < i → cumEnd fs4 j ≤ qmod (mkRat 1 4 - ctr4.start) ((frameDelays fs4).sum))
        ∧ (ctr4.advance (mkRat 1 4)).new_frame = true
        ∧ (ctr4.advance (mkRat 1 4)).wakeup_time = (mkRat 1 4 - ctr4.start) + fr.delay := by
  have h := c4_advance_counter fs4 ctr4 (mkRat 1 4) rfl rfl (by decide)
    (by decide) (by decide)
  simpa using h

end

/-!
## C5 — button edge detection
-/

theorem foldlEmit_eq_filterMap {α β : Type} (f : α → Option β) :
    ∀ (l : List α) (acc : List β), foldlEmit f l acc = acc ++ l.filterMap f := by
  intro l
  induction l with
  | nil => intro acc; simp [foldlEmit]
  | cons x l ih =>
    intro acc
    cases hx : f x with
    | none =>
      have h2 := ih acc
      simp only [foldlEmit] at h2
      simp only [foldlEmit, List.foldl_cons, hx]
      rw [h2, List.filterMap_cons_none hx]
    | some b =>
      have h2 := ih (acc ++ [b])
      simp only [foldlEmit] at h2
      simp only [foldlEmit, List.foldl_cons, hx]
      rw [h2, List.filterMap_cons_some hx]
      simp

theorem mem_enumFrom_le {α : Type} :
    ∀ (l : List α) (n : Nat) (x : Nat × α), x ∈ l.enumFrom n → n ≤ x.1 := by
  intro l
  induction l with
  | nil => intro n x hx; simp [List.enumFrom] at hx
  | cons a l ih =>
    intro n x hx
    simp only [List.enumFrom_cons, List.mem_cons] at hx
    cases hx with
    | inl h => rw [h]
    | inr h => have := ih (n + 1) x h; omega

theorem pairwise_enumFrom {α : Type} :
    ∀ (l : List α) (n : Nat), (l.enumFrom n).Pairwise (fun p q => p.1 < q.1) := by
  intro l
  induction l with
  | nil => intro n; simp [List.enumFrom]
  | cons a l ih =>
    intro n
    simp only [List.enumFrom_cons, List.pairwise_cons]
    refine ⟨?_, ih (n + 1)⟩
    intro x hx
    have := mem_enumFrom_le l (n + 1) x hx
    omega

theorem edgeOf_some (last : List Nat) (k0 v0 e1 : Nat) (e2 : Bool) :
    edgeOf last (k0, v0) = some (e1, e2) ↔
      e1 = k0 ∧
      ((∃ lv, last[k0]? = some lv ∧ lv ≠ v0 ∧ e2 = decide (lv = 0))
       ∨ (last[k0]? = none ∧ 0 < v0 ∧ e2 = true)) := by
  cases h : last[k0]? with
  | some lv =>
    have heq : edgeOf last (k0, v0) =
        if lv ≠ v0 then some (k0, decide (lv = 0)) else none := by
      unfold edgeOf
      rw [h]
    rw [heq]
    by_cases hne : lv = v0
    · rw [if_neg (by simpa using hne)]
      simp [hne]
    · rw [if_pos hne]
      constructor
      · intro he
        obtain ⟨h1, h2⟩ := (Prod.mk.injEq ..).mp (Option.some.inj he)
        exact ⟨h1.symm, Or.inl ⟨lv, rfl, hne, h2.symm⟩⟩
      · rintro ⟨h1, hcase⟩
        rcases hcase with ⟨lv', hlv', hne', h2⟩ | ⟨hnone, _, _⟩
        · obtain rfl : lv = lv' := Option.some.inj hlv'
          rw [h1, h2]
        · exact absurd hnone (by simp)
  | none =>
    have heq : edgeOf last (k0, v0) = if 0 < v0 then some (k0, true) else none := by
      unfold edgeOf
      rw [h]
    rw [heq]
    by_cases hz : 0 < v0
    · rw [if_pos hz]
      constructor
      · intro he
        obtain ⟨h1, h2⟩ := (Prod.mk.injEq ..).mp (Option.some.inj he)
        exact ⟨h1.symm, Or.inr ⟨rfl, hz, h2.symm⟩⟩
      · rintro ⟨h1, hcase⟩
        rcases hcase with ⟨lv', hlv', _, _⟩ | ⟨_, _, h2⟩
        · exact absurd hlv' (by simp)
        · rw [h1, h2]
    · rw [if_neg hz]
      constructor
      · intro he
        exact absurd he (by simp)
      · rintro ⟨h1, hcase⟩
        rcases hcase with ⟨lv', hlv', _, _⟩ | ⟨_, hz', _⟩
        · exact absurd hlv' (by simp)
        · exact absurd hz' hz

/-- C5: on each poll, for every key index of the new report, a pressed edge
(state true) is emitted exactly when the previous value was present, differs
and was 0 (rising) or was absent with a nonzero new value; a released edge
(state false) when the previous value was present, differs and was nonzero;
edges are emitted in ascending key order, and `last_buttons` is replaced by
the new report. -/
theorem c5_button_edges (last buttons : List Nat) :
    (∀ k b, (k, b) ∈ (readButtonsStep last buttons).1 ↔
      (∃ v, buttons[k]? = some v ∧
        ((∃ lv, last[k]? = some lv ∧ lv ≠ v ∧ b = decide (lv = 0))
         ∨ (last[k]? = none ∧ 0 < v ∧ b = true))))
    ∧ (readButtonsStep last buttons).1.Pairwise (fun p q => p.1 < q.1)
    ∧ (readButtonsStep last buttons).2 = buttons := by
  have hfold : (readButtonsStep last buttons).1 = buttons.enum.filterMap (edgeOf last) := by
    unfold readButtonsStep
    rw [foldlEmit_eq_filterMap (edgeOf last) buttons.enum []]
    simp
  refine ⟨?_, ?_, rfl⟩
  · intro k b
    rw [hfold, List.mem_filterMap]
    constructor
    · rintro ⟨x, hmem, hf⟩
      obtain ⟨x1, x2⟩ := x
      have hx := List.mem_enum_iff_getElem?.mp hmem
      obtain ⟨he1, hcase⟩ := (edgeOf_some last x1 x2 k b).mp hf
      refine ⟨x2, by rw [he1]; exact hx, ?_⟩
      rw [he1]
      exact hcase
    · rintro ⟨v, hv, hcase⟩
      refine ⟨(k, v), ?_, ?_⟩
      · exact List.mem_enum_iff_getElem?.mpr hv
      · exact (edgeOf_some last k v k b).mpr ⟨rfl, hcase⟩
  · rw [hfold]
    apply List.Pairwise.filterMap (edgeOf last) _ (by
      rw [List.enum]
      exact pairwise_enumFrom buttons 0)
    intro a a' hlt e he e' he'
    rw [Option.mem_def] at he he'
    obtain ⟨a1, a2⟩ := a
    obtain ⟨b1, b2⟩ := a'
    obtain ⟨x1, x2⟩ := e
    obtain ⟨y1, y2⟩ := e'
    have h1 := ((edgeOf_some last a1 a2 x1 x2).mp he).1
    have h2 := ((edgeOf_some last b1 b2 y1 y2).mp he').1
    simpa [h1, h2] using hlt

/-!
## C3 — cache writes versus `to_cache`
-/

theorem animEntry_cache (env : CoreEnv) (now : ℚ) (cache : Nat → Option DeviceImg)
    (counters : List (String × AnimationCounter)) (e : Nat × (Button × RendererComponent)) :
    (animEntry env now cache counters e).1.1 = cache
    ∨ (e.2.2.to_cache = true ∧ ∃ idx img,
        (animEntry env now cache counters e).1.1
          = upd cache (animatedHash env e.2.1 e.2.2 idx) img) := by
  obtain ⟨key, button, component⟩ := e
  simp only [animEntry]
  repeat' split
  all_goals first
    | (left; rfl)
    | (right; exact ⟨by assumption, _, _, rfl⟩)

theorem animFold_cache (env : CoreEnv) (now : ℚ) :
    ∀ (entries : List (Nat × (Button × RendererComponent)))
      (cache : Nat → Option DeviceImg) (counters : List (String × AnimationCounter))
      (h : Nat),
      (animFold env now entries cache counters).1.1 h = cache h
      ∨ ∃ e ∈ entries, e.2.2.to_cache = true
          ∧ ∃ idx, h = animatedHash env e.2.1 e.2.2 idx := by
  intro entries
  induction entries with
  | nil => intro cache counters h; left; rfl
  | cons e rest ih =>
    intro cache counters h
    simp only [animFold]
    rcases animEntry_cache env now cache counters e with hsame | ⟨htc, idx, img, hupd⟩
    · rcases ih (animEntry env now cache counters e).1.1
        (animEntry env now cache counters e).1.2 h with h1 | ⟨e', he', htc', hidx⟩
      · left
        rw [h1, hsame]
      · right
        exact ⟨e', List.mem_cons_of_mem e he', htc', hidx⟩
    · rcases ih (animEntry env now cache counters e).1.1
        (animEntry env now cache counters e).1.2 h with h1 | ⟨e', he', htc', hidx⟩
      · by_cases hh : h = animatedHash env e.2.1 e.2.2 idx
        · right
          exact ⟨e, List.mem_cons_self e rest, htc, idx, hh⟩
        · left
          rw [hupd] at h1 ⊢
          rw [h1, upd_ne _ _ _ _ hh]
      · right
        exact ⟨e', List.mem_cons_of_mem e he', htc', hidx⟩

theorem redrawKey_insert (env : CoreEnv) (sc : Nat → Option Button)
    (ctrs : List (String × AnimationCounter)) (missing : Img) (acc : RedrawAcc)
    (i : Nat) (b : Button) (c : RendererComponent)
    (hb : sc i = some b) (hr : b.renderer = some c) (ha : animFrames env c = none)
    (hm : acc.cache (staticHash env b c) = none) :
    (redrawKey env sc ctrs missing acc i).1.cache (staticHash env b c)
      = some (drawForeground env c b (drawBackground env c missing ctrs)) := by
  simp only [redrawKey, hb, hr, ha, hm]
  simp [upd]

/-- C3 amended: in the animated-frame step an encoded-cache entry appears at a
hash only if some renderer-map entry has `to_cache` true (and the hash is
that entry's animated hash); but the full-screen redraw inserts the composed
image into the decoded cache on every static-path miss unconditionally — the
component's `to_cache` is not consulted. -/
theorem c3_cache_writes (env : CoreEnv) :
    (∀ (now : ℚ) (s : DeviceState) (h : Nat),
      (processAnimations env now s).2.animationCache h = s.animationCache h
      ∨ ∃ e ∈ s.rendererMap, e.2.2.to_cache = true
          ∧ ∃ idx, h = animatedHash env e.2.1 e.2.2 idx)
    ∧ (∀ (sc : Nat → Option Button) (ctrs : List (String × AnimationCounter))
        (missing : Img) (acc : RedrawAcc) (i : Nat) (b : Button) (c : RendererComponent),
        sc i = some b → b.renderer = some c → animFrames env c = none →
        acc.cache (staticHash env b c) = none →
        (redrawKey env sc ctrs missing acc i).1.cache (staticHash env b c)
          = some (drawForeground env c b (drawBackground env c missing ctrs))) := by
  constructor
  · intro now s h
    exact animFold_cache env now s.rendererMap s.animationCache s.counters h
  · intro sc ctrs missing acc i b c hb hr ha hm
    exact redrawKey_insert env sc ctrs missing acc i b c hb hr ha hm

/-- Witness for C3 at concrete inputs: the animated step leaves the encoded
cache pointwise unchanged (or names a to_cache entry) for a map holding only
the `to_cache = false` entry, and the per-key redraw step inserts the
composed image for the `to_cache = false` component `comp3`. -/
theorem c3_witness :
    ((processAnimations env3 0 state3).2.animationCache 0 = state3.animationCache 0
      ∨ ∃ e ∈ state3.rendererMap, e.2.2.to_cache = true
          ∧ ∃ idx, 0 = animatedHash env3 e.2.1 e.2.2 idx)
    ∧ (redrawKey env3 (fun i => if i = 0 then some btn3 else none) [] Img.placeholder
        ⟨fun _ => none, [], fun _ => none⟩ 0).1.cache (staticHash env3 btn3 comp3)
      = some (drawForeground env3 comp3 btn3
          (drawBackground env3 comp3 Img.placeholder [])) :=
  ⟨(c3_cache_writes env3).1 0 state3 0,
   (c3_cache_writes env3).2 (fun i => if i = 0 then some btn3 else none) []
     Img.placeholder ⟨fun _ => none, [], fun _ => none⟩ 0 btn3 comp3
     rfl rfl rfl rfl⟩

/-- C3 as stated is false: a full-screen redraw of `comp3`, whose `to_cache`
is false, still inserts the composed image into the decoded cache. -/
theorem c3_counterexample :
    comp3.to_cache = false
    ∧ (redraw env3 Img.placeholder emptyState).2.rendererCache (staticHash env3 btn3 comp3)
      = some (drawForeground env3 comp3 btn3 (drawBackground env3 comp3 Img.placeholder [])) :=
  ⟨rfl, by decide⟩

/-!
## C6 — the animated branch of the full-screen redraw
-/

/-- C6 amended: for a key whose button's renderer background is an animated
asset present in the store, the per-key redraw records `(button, component)`
in the render-map and stores frame 0's raw (uncomposed) frame image in the
`current_images` state, and performs no device write, no composition and no
cache access for that key. -/
theorem c6_animated_redraw (env : CoreEnv) (sc : Nat → Option Button)
    (ctrs : List (String × AnimationCounter)) (missing : Img) (acc : RedrawAcc)
    (i : Nat) (b : Button) (c : RendererComponent) (id : String)
    (frames : List AnimationFrame) (f : AnimationFrame) (rest : List AnimationFrame)
    (hb : sc i = some b) (hr : b.renderer = some c)
    (hbg : c.background = .existingImage id)
    (hcol : env.collection id = some (.animatedImage frames))
    (hfs : frames = f :: rest) :
    redrawKey env sc ctrs missing acc i =
      ({ acc with rmap := mapSet acc.rmap i (b, c), cimg := upd acc.cimg i f.image }, []) := by
  have ha : animFrames env c = some frames := by
    simp [animFrames, hbg, hcol]
  simp [redrawKey, hb, hr, ha, hfs]

/-- Witness for C6: the concrete animated key 0 of `env6`. -/
theorem c6_witness :
    redrawKey env6 (fun i => if i = 0 then some btn6 else none) [] Img.placeholder acc6 0
      = ({ acc6 with rmap := mapSet acc6.rmap 0 (btn6, comp6),
                     cimg := upd acc6.cimg 0 frame6.image }, []) :=
  c6_animated_redraw env6 (fun i => if i = 0 then some btn6 else none) [] Img.placeholder
    acc6 0 btn6 comp6 "anim" [frame6] frame6 [] rfl rfl rfl (by decide) rfl

/-- C6 as stated is false: a full-screen redraw of the animated key performs
no device write at all (the claim says frame 0's composed image is pushed to
the device); the state receives the raw frame image, not a composition (the
component has a text overlay and the font exists, so composing would have
wrapped the image). -/
theorem c6_counterexample :
    (redraw env6 Img.placeholder emptyState).1 = []
    ∧ (redraw env6 Img.placeholder emptyState).2.currentImages 0 = some (Img.raw 3)
    ∧ (redraw env6 Img.placeholder emptyState).2.rendererMap = [(0, (btn6, comp6))]
    ∧ comp6.text = [bt6] :=
  ⟨by decide, by decide, by decide, rfl⟩

/-!
## C1 — redraw idempotence

The fold lemmas below relate two consecutive `redraw` calls: the cache only
grows (never overwriting an entry), it covers every static key after one
pass, a pass over a covering cache leaves it unchanged, and the emitted
actions and map updates of a pass can be read against the final cache.
-/

theorem keyHash_some (env : CoreEnv) (sc : Nat → Option Button) (i hsh : Nat) :
    keyHash env sc i = some hsh →
    ∃ b c, sc i = some b ∧ b.renderer = some c ∧ animFrames env c = none
      ∧ hsh = staticHash env b c := by
  intro h
  unfold keyHash at h
  cases hb : sc i with
  | none => simp [hb] at h
  | some b =>
    simp only [hb] at h
    cases hr : b.renderer with
    | none => simp [hr] at h
    | some c =>
      simp only [hr] at h
      cases ha : animFrames env c with
      | some frames => simp [ha] at h
      | none =>
        simp only [ha, Option.some.injEq] at h
        exact ⟨b, c, rfl, hr, ha, h.symm⟩

theorem redrawFold_mono (env : CoreEnv) (sc : Nat → Option Button)
    (ctrs : List (String × AnimationCounter)) (missing : Img) :
    ∀ (ks : List Nat) (acc : RedrawAcc) (h : Nat) (v : Img),
      acc.cache h = some v →
      (redrawFold env sc ctrs missing ks acc).1.cache h = some v := by
  intro ks
  induction ks with
  | nil => intro acc h v hv; exact hv
  | cons i ks ih =>
    intro acc h v hv
    simp only [redrawFold]
    apply ih
    obtain ⟨C, R, G⟩ := acc
    cases hb : sc i with
    | none => simpa [redrawKey, hb] using hv
    | some b =>
      cases hr : b.renderer with
      | none => simpa [redrawKey, hb, hr] using hv
      | some c =>
        cases ha : animFrames env c with
        | some frames =>
          cases hh : frames.head? <;> simpa [redrawKey, hb, hr, ha, hh] using hv
        | none =>
          cases hcc : C (staticHash env b c) with
          | some v0 => simpa [redrawKey, hb, hr, ha, hcc] using hv
          | none =>
            have hne : h ≠ staticHash env b c := by
              intro e
              rw [e] at hv
              simp [hcc] at hv
            simpa [redrawKey, hb, hr, ha, hcc, upd, hne] using hv

theorem redrawFold_covers (env : CoreEnv) (sc : Nat → Option Button)
    (ctrs : List (String × AnimationCounter)) (missing : Img) :
    ∀ (ks : List Nat) (acc : RedrawAcc) (i hsh : Nat),
      i ∈ ks → keyHash env sc i = some hsh →
      ∃ v, (redrawFold env sc ctrs missing ks acc).1.cache hsh = some v := by
  intro ks
  induction ks with
  | nil => intro acc i hsh hmem; exact absurd hmem (List.not_mem_nil i)
  | cons j ks ih =>
    intro acc i hsh hmem hk
    simp only [redrawFold]
    rcases List.mem_cons.mp hmem with rfl | hmem'
    · obtain ⟨b, c, hb, hr, ha, heq⟩ := keyHash_some env sc i hsh hk
      subst heq
      obtain ⟨C, R, G⟩ := acc
      cases hcc : C (staticHash env b c) with
      | some v =>
        exact ⟨v, redrawFold_mono env sc ctrs missing ks _ _ v
          (by simp [redrawKey, hb, hr, ha, hcc])⟩
      | none =>
        refine ⟨drawForeground env c b (drawBackground env c missing ctrs),
          redrawFold_mono env sc ctrs missing ks _ _ _ ?_⟩
        simp [redrawKey, hb, hr, ha, hcc, upd]
    · exact ih _ i hsh hmem' hk

theorem redrawFold_stable (env : CoreEnv) (sc : Nat → Option Button)
    (ctrs : List (String × AnimationCounter)) (missing : Img) :
    ∀ (ks : List Nat) (acc : RedrawAcc),
      (∀ i hsh, i ∈ ks → keyHash env sc i = some hsh → (acc.cache hsh).isSome) →
      (redrawFold env sc ctrs missing ks acc).1.cache = acc.cache := by
  intro ks
  induction ks with
  | nil => intro acc _; rfl
  | cons i ks ih =>
    intro acc hs
    simp only [redrawFold]
    have hstep : (redrawKey env sc ctrs missing acc i).1.cache = acc.cache := by
      obtain ⟨C, R, G⟩ := acc
      cases hb : sc i with
      | none => simp [redrawKey, hb]
      | some b =>
        cases hr : b.renderer with
        | none => simp [redrawKey, hb, hr]
        | some c =>
          cases ha : animFrames env c with
          | some frames =>
            cases hh : frames.head? <;> simp [redrawKey, hb, hr, ha, hh]
          | none =>
            have hk : keyHash env sc i = some (staticHash env b c) := by
              simp [keyHash, hb, hr, ha]
            have := hs i (staticHash env b c) (List.mem_cons_self i ks) hk
            obtain ⟨v, hv⟩ := Option.isSome_iff_exists.mp this
            simp [redrawKey, hb, hr, ha]
            simp only at hv
            simp [hv]
    have htail := ih (redrawKey env sc ctrs missing acc i).1
      (fun i' hsh hm hk => by
        rw [hstep]
        exact hs i' hsh (List.mem_cons_of_mem i hm) hk)
    rw [htail, hstep]

theorem redrawFold_view (env : CoreEnv) (sc : Nat → Option Button)
    (ctrs : List (String × AnimationCounter)) (missing : Img) :
    ∀ (ks : List Nat) (acc : RedrawAcc) (C : Nat → Option Img),
      (∀ h v, (redrawFold env sc ctrs missing ks acc).1.cache h = some v →
        C h = some v) →
      (redrawFold env sc ctrs missing ks acc).2
          = ks.flatMap (keyActs env sc ctrs missing C)
      ∧ (redrawFold env sc ctrs missing ks acc).1.rmap
          = ks.foldl (rmapOp env sc) acc.rmap
      ∧ (redrawFold env sc ctrs missing ks acc).1.cimg
          = ks.foldl (cimgOp env sc ctrs missing C) acc.cimg := by
  intro ks
  induction ks with
  | nil => intro acc C hC; exact ⟨rfl, rfl, rfl⟩
  | cons i ks ih =>
    intro acc C hC
    obtain ⟨Ca, R, G⟩ := acc
    cases hb : sc i with
    | none =>
      have hkey : redrawKey env sc ctrs missing ⟨Ca, R, G⟩ i
          = (⟨Ca, mapErase R i, G⟩, [.setRGB i 0 0 0]) := by
        simp [redrawKey, hb]
      have hC' : ∀ h v,
          (redrawFold env sc ctrs missing ks (⟨Ca, mapErase R i, G⟩ : RedrawAcc)).1.cache h
            = some v → C h = some v := by
        intro h v hv
        apply hC h v
        simp only [redrawFold]
        rw [hkey]
        exact hv
      obtain ⟨IH1, IH2, IH3⟩ := ih ⟨Ca, mapErase R i, G⟩ C hC'
      refine ⟨?_, ?_, ?_⟩
      · simp only [redrawFold, List.flatMap_cons]
        rw [hkey]
        simp only [IH1]
        simp [keyActs, redrawKey, hb]
      · simp only [redrawFold, List.foldl_cons]
        rw [hkey]
        simp only [IH2]
        simp [rmapOp, keyRmapVal, hb]
      · simp only [redrawFold, List.foldl_cons]
        rw [hkey]
        simp only [IH3]
        simp [cimgOp, keyCimgVal, hb]
    | some b =>
      cases hr : b.renderer with
      | none =>
        have hkey : redrawKey env sc ctrs missing ⟨Ca, R, G⟩ i
            = (⟨Ca, mapErase R i, upd G i (Img.solid env.imageSize ⟨0, 0, 0, 255⟩)⟩,
               [.setRGB i 0 0 0]) := by
          simp [redrawKey, hb, hr]
        have hC' : ∀ h v,
            (redrawFold env sc ctrs missing ks
              (⟨Ca, mapErase R i, upd G i (Img.solid env.imageSize ⟨0, 0, 0, 255⟩)⟩ :
                RedrawAcc)).1.cache h = some v → C h = some v := by
          intro h v hv
          apply hC h v
          simp only [redrawFold]
          rw [hkey]
          exact hv
        obtain ⟨IH1, IH2, IH3⟩ := ih _ C hC'
        refine ⟨?_, ?_, ?_⟩
        · simp only [redrawFold, List.flatMap_cons]
          rw [hkey]
          simp only [IH1]
          simp [keyActs, redrawKey, hb, hr]
        · simp only [redrawFold, List.foldl_cons]
          rw [hkey]
          simp only [IH2]
          simp [rmapOp, keyRmapVal, hb, hr]
        · simp only [redrawFold, List.foldl_cons]
          rw [hkey]
          simp only [IH3]
          simp [cimgOp, keyCimgVal, hb, hr]
      | some c =>
        cases ha : animFrames env c with
        | some frames =>
          cases hh : frames.head? with
          | some f =>
            have hkey : redrawKey env sc ctrs missing ⟨Ca, R, G⟩ i
                = (⟨Ca, mapSet R i (b, c), upd G i f.image⟩, []) := by
              simp [redrawKey, hb, hr, ha, hh]
            have hC' : ∀ h v,
                (redrawFold env sc ctrs missing ks
                  (⟨Ca, mapSet R i (b, c), upd G i f.image⟩ : RedrawAcc)).1.cache h
                  = some v → C h = some v := by
              intro h v hv
              apply hC h v
              simp only [redrawFold]
              rw [hkey]
              exact hv
            obtain ⟨IH1, IH2, IH3⟩ := ih _ C hC'
            refine ⟨?_, ?_, ?_⟩
            · simp only [redrawFold, List.flatMap_cons]
              rw [hkey]
              simp only [IH1]
              simp [keyActs, redrawKey, hb, hr, ha, hh]
            · simp only [redrawFold, List.foldl_cons]
              rw [hkey]
              simp only [IH2]
              simp [rmapOp, keyRmapVal, hb, hr]
            · simp only [redrawFold, List.foldl_cons]
              rw [hkey]
              simp only [IH3]
              simp [cimgOp, keyCimgVal, hb, hr, ha, hh]
          | none =>
            have hkey : redrawKey env sc ctrs missing ⟨Ca, R, G⟩ i
                = (⟨Ca, mapSet R i (b, c), G⟩, []) := by
              simp [redrawKey, hb, hr, ha, hh]
            have hC' : ∀ h v,
                (redrawFold env sc ctrs missing ks
                  (⟨Ca, mapSet R i (b, c), G⟩ : RedrawAcc)).1.cache h
                  = some v → C h = some v := by
              intro h v hv
              apply hC h v
              simp only [redrawFold]
              rw [hkey]
              exact hv
            obtain ⟨IH1, IH2, IH3⟩ := ih _ C hC'
            refine ⟨?_, ?_, ?_⟩
            · simp only [redrawFold, List.flatMap_cons]
              rw [hkey]
              simp only [IH1]
              simp [keyActs, redrawKey, hb, hr, ha, hh]
            · simp only [redrawFold, List.foldl_cons]
              rw [hkey]
              simp only [IH2]
              simp [rmapOp, keyRmapVal, hb, hr]
            · simp only [redrawFold, List.foldl_cons]
              rw [hkey]
              simp only [IH3]
              simp [cimgOp, keyCimgVal, hb, hr, ha, hh]
        | none =>
          cases hcc : Ca (staticHash env b c) with
          | some v0 =>
            have hkey : redrawKey env sc ctrs missing ⟨Ca, R, G⟩ i
                = (⟨Ca, mapSet R i (b, c), upd G i v0⟩,
                   [.writeImage i (.convert v0)]) := by
              simp [redrawKey, hb, hr, ha, hcc]
            have hC' : ∀ h v,
                (redrawFold env sc ctrs missing ks
                  (⟨Ca, mapSet R i (b, c), upd G i v0⟩ : RedrawAcc)).1.cache h
                  = some v → C h = some v := by
              intro h v hv
              apply hC h v
              simp only [redrawFold]
              rw [hkey]
              exact hv
            have hCv : C (staticHash env b c) = some v0 :=
              hC' _ v0 (redrawFold_mono env sc ctrs missing ks _ _ v0 hcc)
            obtain ⟨IH1, IH2, IH3⟩ := ih _ C hC'
            refine ⟨?_, ?_, ?_⟩
            · simp only [redrawFold, List.flatMap_cons]
              rw [hkey]
              simp only [IH1]
              simp [keyActs, redrawKey, hb, hr, ha, hCv]
            · simp only [redrawFold, List.foldl_cons]
              rw [hkey]
              simp only [IH2]
              simp [rmapOp, keyRmapVal, hb, hr]
            · simp only [redrawFold, List.foldl_cons]
              rw [hkey]
              simp only [IH3]
              simp [cimgOp, keyCimgVal, hb, hr, ha, hCv]
          | none =>
            have hkey : redrawKey env sc ctrs missing ⟨Ca, R, G⟩ i
                = (⟨upd Ca (staticHash env b c)
                      (drawForeground env c b (drawBackground env c missing ctrs)),
                    mapSet R i (b, c),
                    upd G i (drawForeground env c b (drawBackground env c missing ctrs))⟩,
                   [.writeImage i
                     (.convert (drawForeground env c b (drawBackground env c missing ctrs)))]) := by
              simp [redrawKey, hb, hr, ha, hcc]
            have hC' : ∀ h v,
                (redrawFold env sc ctrs missing ks
                  (⟨upd Ca (staticHash env b c)
                      (drawForeground env c b (drawBackground env c missing ctrs)),
                    mapSet R i (b, c),
                    upd G i (drawForeground env c b (drawBackground env c missing ctrs))⟩ :
                    RedrawAcc)).1.cache h = some v → C h = some v := by
              intro h v hv
              apply hC h v
              simp only [redrawFold]
              rw [hkey]
              exact hv
            have hCm : C (staticHash env b c)
                = some (drawForeground env c b (drawBackground env c missing ctrs)) :=
              hC' _ _ (redrawFold_mono env sc ctrs missing ks _ _ _ (by simp [upd]))
            obtain ⟨IH1, IH2, IH3⟩ := ih _ C hC'
            refine ⟨?_, ?_, ?_⟩
            · simp only [redrawFold, List.flatMap_cons]
              rw [hkey]
              simp only [IH1]
              simp [keyActs, redrawKey, hb, hr, ha, hCm]
            · simp only [redrawFold, List.foldl_cons]
              rw [hkey]
              simp only [IH2]
              simp [rmapOp, keyRmapVal, hb, hr]
            · simp only [redrawFold, List.foldl_cons]
              rw [hkey]
              simp only [IH3]
              simp [cimgOp, keyCimgVal, hb, hr, ha, hCm]

theorem rmapFold_get (env : CoreEnv) (sc : Nat → Option Button) :
    ∀ (ks : List Nat) (m : List (Nat × (Button × RendererComponent))) (j : Nat),
      mapGet (ks.foldl (rmapOp env sc) m) j
        = if j ∈ ks then keyRmapVal env sc j else mapGet m j := by
  intro ks
  induction ks with
  | nil => intro m j; simp
  | cons k ks ih =>
    intro m j
    simp only [List.foldl_cons]
    rw [ih (rmapOp env sc m k) j]
    by_cases hjk : j ∈ ks
    · simp [hjk, List.mem_cons]
    · by_cases hk : j = k
      · subst hk
        simp only [hjk, if_false, List.mem_cons, true_or, if_true]
        unfold rmapOp
        cases hkv : keyRmapVal env sc j with
        | some bc => simp [mapGet_mapSet_self]
        | none => simp [mapGet_mapErase_self]
      · have hnot : ¬j ∈ k :: ks := by simp [hk, hjk]
        simp only [hjk, if_false, hnot]
        unfold rmapOp
        cases hkv : keyRmapVal env sc k with
        | some bc => simp [mapGet_mapSet_ne _ _ _ _ hk]
        | none => simp [mapGet_mapErase_ne _ _ _ hk]

theorem rmapFold_noop (env : CoreEnv) (sc : Nat → Option Button) :
    ∀ (ks : List Nat) (m : List (Nat × (Button × RendererComponent))),
      (∀ j, j ∈ ks → mapGet m j = keyRmapVal env sc j) →
      ks.foldl (rmapOp env sc) m = m := by
  intro ks
  induction ks with
  | nil => intro m _; rfl
  | cons k ks ih =>
    intro m hs
    simp only [List.foldl_cons]
    have hstep : rmapOp env sc m k = m := by
      unfold rmapOp
      have hk := hs k (List.mem_cons_self k ks)
      cases hkv : keyRmapVal env sc k with
      | some bc =>
        rw [hkv] at hk
        exact mapSet_of_get m k bc hk
      | none =>
        rw [hkv] at hk
        exact mapErase_of_get_none m k hk
    rw [hstep]
    exact ih m (fun j hj => hs j (List.mem_cons_of_mem k hj))

/-- C1 amended: a second `Redraw` with no intervening state change performs no
recomposition and no cache or render-map change — but it is not write-free:
it repeats exactly the same device writes as the first redraw (the cache-hit
path still writes the cached image to the device). -/
theorem c1_redraw_idempotent (env : CoreEnv) (missing : Img) (s : DeviceState) :
    redraw env missing ((redraw env missing s).2) = redraw env missing s := by
  cases hscr : env.currentScreen with
  | none => simp [redraw, hscr]
  | some sc =>
    obtain ⟨RC, AC, RM, CT, CI⟩ := s
    simp only [redraw, hscr]
    have hstable :
        (redrawFold env sc CT missing (List.range env.keyCount)
          ⟨(redrawFold env sc CT missing (List.range env.keyCount)
              ⟨RC, RM, fun _ => none⟩).1.cache,
            (redrawFold env sc CT missing (List.range env.keyCount)
              ⟨RC, RM, fun _ => none⟩).1.rmap,
            fun _ => none⟩).1.cache
          = (redrawFold env sc CT missing (List.range env.keyCount)
              ⟨RC, RM, fun _ => none⟩).1.cache := by
      apply redrawFold_stable
      intro i hsh hm hk
      obtain ⟨v, hv⟩ := redrawFold_covers env sc CT missing
        (List.range env.keyCount) ⟨RC, RM, fun _ => none⟩ i hsh hm hk
      simp [hv]
    obtain ⟨hA1, hR1, hG1⟩ := redrawFold_view env sc CT missing
      (List.range env.keyCount) ⟨RC, RM, fun _ => none⟩
      ((redrawFold env sc CT missing (List.range env.keyCount)
          ⟨RC, RM, fun _ => none⟩).1.cache)
      (fun h v hv => hv)
    obtain ⟨hA2, hR2, hG2⟩ := redrawFold_view env sc CT missing
      (List.range env.keyCount)
      ⟨(redrawFold env sc CT missing (List.range env.keyCount)
          ⟨RC, RM, fun _ => none⟩).1.cache,
        (redrawFold env sc CT missing (List.range env.keyCount)
          ⟨RC, RM, fun _ => none⟩).1.rmap,
        fun _ => none⟩
      ((redrawFold env sc CT missing (List.range env.keyCount)
          ⟨RC, RM, fun _ => none⟩).1.cache)
      (fun h v hv => by rw [hstable] at hv; exact hv)
    have hrm :
        (List.range env.keyCount).foldl (rmapOp env sc)
            ((redrawFold env sc CT missing (List.range env.keyCount)
              ⟨RC, RM, fun _ => none⟩).1.rmap)
          = (redrawFold env sc CT missing (List.range env.keyCount)
              ⟨RC, RM, fun _ => none⟩).1.rmap := by
      apply rmapFold_noop
      intro j hj
      rw [hR1]
      rw [rmapFold_get]
      simp [hj]
    simp only at hR2 hG2
    rw [hA1, hA2, hstable, hR2, hrm, hG2, hR1, hG1]

/-- C1 as stated is false: with a single key whose component has
`to_cache = true` and a plain solid background, the second `Redraw` after an
unchanged first one still performs a device write — it writes the cached
image again. -/
theorem c1_counterexample :
    comp1.to_cache = true
    ∧ (redraw env1 Img.placeholder (redraw env1 Img.placeholder emptyState).2).1
      = [DeviceAction.writeImage 0 (DeviceImg.convert
          (drawForeground env1 comp1 btn1 (drawBackground env1 comp1 Img.placeholder [])))] :=
  ⟨rfl, by decide⟩
